import Mathlib

/-!
Verification of the consensus core of aoluwar/Consensus-Blockchain-Algorithm.

The repository has two Rust source files:
  * `src/rust_consensus_snippet.rs`, embedded below in namespace `Snippet`;
  * `src/src/consensus.rs`, embedded below in namespace `ConsensusRs`.

Bytes (public keys, hashes, signatures) are modelled as `List Nat`; `u64`
values are modelled as `Nat`, with wrapping arithmetic written explicitly as
`% 2 ^ 64` and the saturating operations written explicitly, at the places
where the Rust code uses them.
-/

/-- Decidable equality for `Except`, used to evaluate the embedded PBFT
results on concrete inputs. -/
instance exceptDecEq {ε α : Type} [DecidableEq ε] [DecidableEq α] :
    DecidableEq (Except ε α) := fun a b =>
  match a, b with
  | Except.error x, Except.error y =>
      if h : x = y then isTrue (by rw [h])
      else isFalse (fun hc => h (Except.error.inj hc))
  | Except.error _, Except.ok _ => isFalse (fun hc => Except.noConfusion hc)
  | Except.ok _, Except.error _ => isFalse (fun hc => Except.noConfusion hc)
  | Except.ok x, Except.ok y =>
      if h : x = y then isTrue (by rw [h])
      else isFalse (fun hc => h (Except.ok.inj hc))

/-- Largest value of a Rust `u64`. -/
def U64_MAX : Nat := 2 ^ 64 - 1

/-- Rust `u64::saturating_add`, on the `Nat` model of `u64`. -/
def u64_saturating_add (a b : Nat) : Nat := Nat.min (a + b) U64_MAX

/-- Rust `u64::saturating_sub`; `Nat` subtraction is already truncated at 0. -/
def u64_saturating_sub (a b : Nat) : Nat := a - b

namespace Snippet

/-- `VoteTransaction` from `src/rust_consensus_snippet.rs` lines 17-24.
The `hash` field is not declared on the Rust struct, but
`calculate_merkle_root` reads `tx.hash` (line 198, with the source comment
"Assuming tx has a hash field"), so the embedding carries it. -/
structure VoteTransaction where
  voter_pub_key : List Nat
  election_id : List Nat
  candidate_id : List Nat
  timestamp : Nat
  signature : List Nat
  hash : List Nat
deriving DecidableEq

/-- `BlockHeader` from `src/rust_consensus_snippet.rs` lines 26-37. -/
structure BlockHeader where
  prev_block_hash : List Nat
  merkle_root : List Nat
  timestamp : Nat
  height : Nat
  validator_pub_key : List Nat
  pre_prepare_signatures : List (List Nat)
  prepare_signatures : List (List Nat)
  commit_signatures : List (List Nat)
deriving DecidableEq

/-- `Block` from `src/rust_consensus_snippet.rs` lines 39-43. -/
structure Block where
  header : BlockHeader
  transactions : List VoteTransaction
deriving DecidableEq

/-- `Validator` from `src/rust_consensus_snippet.rs` lines 45-51. -/
structure Validator where
  pub_key : List Nat
  stake : Nat
  reputation_score : Nat
  geopolitical_zone : String
deriving DecidableEq

/-- `NaijaConsensusEngine` from `src/rust_consensus_snippet.rs` lines 53-57. -/
structure NaijaConsensusEngine where
  current_committee : List Validator
  faulty_nodes_limit : Nat
deriving DecidableEq

/-- `calculate_merkle_root` from `src/rust_consensus_snippet.rs` lines
190-202.  The empty list returns `vec![0; 32]`.  For a non-empty list the
source concatenates the transaction hashes into `combined_hashes`, but the
`sha3` digest call on it is commented out and the function returns the
literal `vec![0; 32]`, so `combined_hashes` is dead code. -/
def calculate_merkle_root (transactions : List VoteTransaction) : List Nat :=
  if transactions.isEmpty then
    List.replicate 32 0
  else
    let combined_hashes := transactions.foldl (fun acc tx => acc ++ tx.hash) []
    List.replicate 32 0

/-- The dummy signer recovery in `update_reputations_for_block`
(`src/rust_consensus_snippet.rs` lines 174-176): every commit signature is
mapped to the dummy public key `vec![0; 32]`. -/
def committed_validators (block : Block) : List (List Nat) :=
  block.header.commit_signatures.map (fun _sig => List.replicate 32 0)

/-- `update_reputations_for_block` from `src/rust_consensus_snippet.rs`
lines 172-187: every committee member whose key is among the recovered
commit signers gains 1 reputation point (saturating add); every other
committee member loses 5 (saturating sub). -/
def update_reputations_for_block (e : NaijaConsensusEngine) (block : Block) :
    NaijaConsensusEngine :=
  { e with current_committee := e.current_committee.map (fun validator =>
      if validator.pub_key ∈ committed_validators block then
        { validator with
            reputation_score := u64_saturating_add validator.reputation_score 1 }
      else
        { validator with
            reputation_score := u64_saturating_sub validator.reputation_score 5 }) }

/-- `finalize_block_pbft` from `src/rust_consensus_snippet.rs` lines
137-169.  The Rust method mutates `self` (through
`update_reputations_for_block`) and returns `Result<Block, String>`; the
embedding passes the engine state explicitly and returns the new state
paired with the result. -/
def finalize_block_pbft (e : NaijaConsensusEngine) (block : Block) :
    NaijaConsensusEngine × Except String Block :=
  if block.header.prepare_signatures.length < 2 * e.faulty_nodes_limit + 1 then
    (e, Except.error ("Not enough prepare signatures"))
  else if block.header.commit_signatures.length < 2 * e.faulty_nodes_limit + 1 then
    (e, Except.error ("Not enough commit signatures"))
  else
    (update_reputations_for_block e block, Except.ok block)

/-- `composite_score` from the sort comparator in `select_election_validators`
(`src/rust_consensus_snippet.rs` lines 80-84): a plain `u64` multiplication
`a.stake * a.reputation_score`, which wraps modulo `2 ^ 64`. -/
def composite_score (v : Validator) : Nat :=
  (v.stake * v.reputation_score) % 2 ^ 64

/-- Rust's `sort_by(|a, b| score_b.cmp(&score_a))` is a stable descending
sort by `composite_score`; it is embedded as a stable insertion sort with
the matching relation. -/
def sortedByScore (pool : List Validator) : List Validator :=
  List.insertionSort (fun a b => composite_score b ≤ composite_score a) pool

/-- The fixed zone array of `select_election_validators`
(`src/rust_consensus_snippet.rs` line 75). -/
def zones : List String :=
  ["South-West", "North-Central", "South-South", "North-West", "South-East", "North-East"]

/-- One iteration of the inner zone loop of `select_election_validators`
(`src/rust_consensus_snippet.rs` lines 89-99): the accumulator is the
selected list paired with the per-zone `count`.  The source also updates the
`zone_counts` map here, but that map is only ever written, never read, so it
does not appear in the embedding. -/
def zoneStep (zone : String) (min_per_zone : Nat)
    (acc : List Validator × Nat) (validator : Validator) : List Validator × Nat :=
  if validator.geopolitical_zone = zone ∧ acc.2 < min_per_zone then
    if ∃ w ∈ acc.1, w.pub_key = validator.pub_key then acc
    else (acc.1 ++ [validator], acc.2 + 1)
  else acc

/-- One zone's pass over the sorted pool (`src/rust_consensus_snippet.rs`
lines 87-100). -/
def zonePass (sorted : List Validator) (min_per_zone : Nat)
    (sel : List Validator) (zone : String) : List Validator :=
  (sorted.foldl (zoneStep zone min_per_zone) (sel, 0)).1

/-- One iteration of the fill loop of `select_election_validators`
(`src/rust_consensus_snippet.rs` lines 103-111); the Rust `break` once the
committee is full is modelled by the no-op branch. -/
def fillStep (committee_size : Nat)
    (sel : List Validator) (validator : Validator) : List Validator :=
  if sel.length < committee_size then
    if ∃ w ∈ sel, w.pub_key = validator.pub_key then sel
    else sel ++ [validator]
  else sel

/-- `select_election_validators` from `src/rust_consensus_snippet.rs` lines
69-113. -/
def select_election_validators (all_staked_validators : List Validator)
    (committee_size : Nat) : List Validator :=
  let min_per_zone := committee_size / zones.length
  let sorted := sortedByScore all_staked_validators
  let after_zones := zones.foldl (zonePass sorted min_per_zone) []
  sorted.foldl (fillStep committee_size) after_zones

end Snippet

namespace ConsensusRs

/-- `Transaction` from `src/src/consensus.rs` lines 10-18. -/
structure Transaction where
  hash : List Nat
  sender : List Nat
  recipient : List Nat
  amount : Nat
  signature : List Nat
deriving DecidableEq

/-- `BlockHeader` from `src/src/consensus.rs` lines 21-29. -/
structure BlockHeader where
  version : Nat
  prev_block_hash : List Nat
  merkle_root : List Nat
  timestamp : Nat
  height : Nat
deriving DecidableEq

/-- `Validator` from `src/src/consensus.rs` lines 32-39. -/
structure Validator where
  pub_key : List Nat
  stake : Nat
  geopolitical_zone : String
  reputation_score : Nat
  last_active_block : Nat
deriving DecidableEq

/-- `Block` from `src/src/consensus.rs` lines 42-50 (the signature lists live
on the block itself in this file, not on the header). -/
structure Block where
  header : BlockHeader
  transactions : List Transaction
  pre_prepare_signatures : List (List Nat)
  prepare_signatures : List (List Nat)
  commit_signatures : List (List Nat)
deriving DecidableEq

/-- `NaijaConsensusEngine` from `src/src/consensus.rs` lines 53-57. -/
structure NaijaConsensusEngine where
  current_validators : List Validator
  faulty_nodes_limit : Nat
deriving DecidableEq

/-- The placeholder signer recovery in `update_reputations_for_block`
(`src/src/consensus.rs` lines 160-162): each commit signature's bytes are
used directly as the recovered signer public key. -/
def participating_keys (block : Block) : List (List Nat) :=
  block.commit_signatures.map (fun sig => sig)

/-- `update_reputations_for_block` from `src/src/consensus.rs` lines
159-177: only validators that are members of the given committee are
touched; a member whose key is among the recovered commit signers gains 1
point (saturating add), any other member loses 5 (saturating sub). -/
def update_reputations_for_block (e : NaijaConsensusEngine) (block : Block)
    (committee : List Validator) : NaijaConsensusEngine :=
  { e with current_validators := e.current_validators.map (fun validator =>
      if ∃ w ∈ committee, w.pub_key = validator.pub_key then
        if validator.pub_key ∈ participating_keys block then
          { validator with
              reputation_score := u64_saturating_add validator.reputation_score 1 }
        else
          { validator with
              reputation_score := u64_saturating_sub validator.reputation_score 5 }
      else validator) }

/-- `process_block_pbft` from `src/src/consensus.rs` lines 105-156.  The
first `if` of each phase only prints a message and is dropped; the second,
identical test returns the error.  State is passed explicitly as in
`Snippet.finalize_block_pbft`. -/
def process_block_pbft (e : NaijaConsensusEngine) (proposed_block : Block)
    (current_committee : List Validator) :
    NaijaConsensusEngine × Except String Block :=
  if proposed_block.prepare_signatures.length < 2 * e.faulty_nodes_limit + 1 then
    (e, Except.error ("Not enough prepare signatures to proceed to Commit phase."))
  else if proposed_block.commit_signatures.length < 2 * e.faulty_nodes_limit + 1 then
    (e, Except.error ("Not enough commit signatures to finalize block."))
  else
    (update_reputations_for_block e proposed_block current_committee,
     Except.ok proposed_block)

/-- `composite_score` from the sort comparator in `select_validators`
(`src/src/consensus.rs` lines 80-84): plain `u64` multiplication, wrapping
modulo `2 ^ 64`. -/
def composite_score (v : Validator) : Nat :=
  (v.stake * v.reputation_score) % 2 ^ 64

/-- Stable descending sort by `composite_score`, as in `Snippet.sortedByScore`. -/
def sortedByScore (pool : List Validator) : List Validator :=
  List.insertionSort (fun a b => composite_score b ≤ composite_score a) pool

/-- One iteration of the selection loop of `select_validators`
(`src/src/consensus.rs` lines 87-99).  The accumulator is the selected list
paired with a flag recording that the Rust `break` has fired.  The
`zone_counts` map entry read at the top of the loop always equals the number
of already-selected validators of the current validator's zone, since it is
incremented exactly when one is pushed, so it is embedded as that count. -/
def selStep (num_validators_per_zone total_committee_size : Nat)
    (acc : List Validator × Bool) (validator : Validator) : List Validator × Bool :=
  if acc.2 then acc
  else
    let current_zone_count :=
      (acc.1.filter (fun v => v.geopolitical_zone == validator.geopolitical_zone)).length
    let sel :=
      if current_zone_count < num_validators_per_zone ∨
          acc.1.length < total_committee_size then
        acc.1 ++ [validator]
      else acc.1
    (sel, sel.length == total_committee_size)

/-- `select_validators` from `src/src/consensus.rs` lines 69-101. -/
def select_validators (all_staked_validators : List Validator)
    (num_validators_per_zone total_committee_size : Nat) : List Validator :=
  let sorted := sortedByScore all_staked_validators
  (sorted.foldl (selStep num_validators_per_zone total_committee_size)
    ([], false)).1

end ConsensusRs

/-! Specification-side definition used for the refinement comparison of the
composite selection score. -/

/-- Score computation as the spec words it ("stake × reputation_score ...
use a widened integer type and saturate/clamp at the maximum representable
score, never wrap"): the mathematical product clamped at `U64_MAX`.  This
follows the spec's words, to be compared with `composite_score`, which is
translated from the source. -/
def spec_widened_clamped_score (stake reputation_score : Nat) : Nat :=
  Nat.min (stake * reputation_score) U64_MAX

/-! Concrete sample data used by witnesses and counterexamples. -/

/-- Sample committee member used by several snippet-side engines. -/
def sampleValidator : Snippet.Validator :=
  { pub_key := [1], stake := 1000, reputation_score := 50,
    geopolitical_zone := "South-West" }

/-- Engine with fault limit 1 (prepare/commit quorum threshold 3). -/
def cex1_engine : Snippet.NaijaConsensusEngine :=
  { current_committee := [sampleValidator], faulty_nodes_limit := 1 }

/-- Block carrying three identical prepare signatures (three copies of the
byte string `[7]`, i.e. duplicates from a single signer) and likewise three
identical commit signatures. -/
def cex1_block : Snippet.Block :=
  { header := { prev_block_hash := List.replicate 32 0,
                merkle_root := List.replicate 32 0,
                timestamp := 0, height := 100, validator_pub_key := [9],
                pre_prepare_signatures := [[5]],
                prepare_signatures := [[7], [7], [7]],
                commit_signatures := [[7], [7], [7]] },
    transactions := [] }

/-- Block with only two prepare signatures, below the threshold 3 of
`cex1_engine`. -/
def cex1_low_block : Snippet.Block :=
  { header := { prev_block_hash := List.replicate 32 0,
                merkle_root := List.replicate 32 0,
                timestamp := 0, height := 100, validator_pub_key := [9],
                pre_prepare_signatures := [[5]],
                prepare_signatures := [[7], [8]],
                commit_signatures := [[7], [8], [9]] },
    transactions := [] }

/-- Engine with fault limit 0 (quorum threshold 1). -/
def cex2_engine : Snippet.NaijaConsensusEngine :=
  { current_committee := [sampleValidator], faulty_nodes_limit := 0 }

/-- Block whose `merkle_root` (32 one-bytes) differs from the recomputed
Merkle root over its (empty) transaction list (32 zero-bytes), yet carries
enough prepare and commit signatures. -/
def cex2_block : Snippet.Block :=
  { header := { prev_block_hash := List.replicate 32 0,
                merkle_root := List.replicate 32 1,
                timestamp := 0, height := 100, validator_pub_key := [9],
                pre_prepare_signatures := [[5]],
                prepare_signatures := [[1]],
                commit_signatures := [[1]] },
    transactions := [] }

/-- Engine with fault limit 0 used for the proposer-check claim. -/
def cex3_engine : Snippet.NaijaConsensusEngine :=
  { current_committee := [sampleValidator], faulty_nodes_limit := 0 }

/-- Block with an empty `pre_prepare_signatures` list: the proposer
signature is absent. -/
def cex3_block : Snippet.Block :=
  { header := { prev_block_hash := List.replicate 32 0,
                merkle_root := List.replicate 32 0,
                timestamp := 0, height := 100, validator_pub_key := [9],
                pre_prepare_signatures := [],
                prepare_signatures := [[2]],
                commit_signatures := [[2]] },
    transactions := [] }

/-- Block with an absent proposer signature and too few prepare signatures. -/
def cex3_fail_block : Snippet.Block :=
  { header := { prev_block_hash := List.replicate 32 0,
                merkle_root := List.replicate 32 0,
                timestamp := 0, height := 100, validator_pub_key := [9],
                pre_prepare_signatures := [],
                prepare_signatures := [],
                commit_signatures := [[2]] },
    transactions := [] }

/-- Validator whose stake and reputation multiply to exactly `2 ^ 64`, the
smallest product that wraps to 0 in `u64` arithmetic. -/
def cex6_validator : Snippet.Validator :=
  { pub_key := [1], stake := 2 ^ 32, reputation_score := 2 ^ 32,
    geopolitical_zone := "South-West" }

/-- Small validator with an overflow-free score, used by the claim 6 witness. -/
def wit6_validator : Snippet.Validator :=
  { pub_key := [2], stake := 3, reputation_score := 5,
    geopolitical_zone := "North-East" }

/-- Small validator on the `src/src/consensus.rs` side, used by the claim 6
witness. -/
def wit6_validator2 : ConsensusRs.Validator :=
  { pub_key := [2], stake := 7, reputation_score := 6,
    geopolitical_zone := "North-East", last_active_block := 0 }

/-- Two distinct sample transactions used for the Merkle order-sensitivity
counterexample. -/
def cex8_tx1 : Snippet.VoteTransaction :=
  { voter_pub_key := [1], election_id := [1], candidate_id := [1],
    timestamp := 1, signature := [1], hash := [1] }

/-- Second sample transaction, distinct from `cex8_tx1`. -/
def cex8_tx2 : Snippet.VoteTransaction :=
  { voter_pub_key := [2], election_id := [1], candidate_id := [2],
    timestamp := 2, signature := [2], hash := [2] }

/-- Committee member with key `[1]` on the `src/src/consensus.rs` side. -/
def wit4_valA : ConsensusRs.Validator :=
  { pub_key := [1], stake := 10, geopolitical_zone := "South-West",
    reputation_score := 50, last_active_block := 0 }

/-- Committee member with key `[2]` and a reputation below 5. -/
def wit4_valB : ConsensusRs.Validator :=
  { pub_key := [2], stake := 20, geopolitical_zone := "North-Central",
    reputation_score := 3, last_active_block := 0 }

/-- Validator with key `[3]` that is not a committee member. -/
def wit4_valC : ConsensusRs.Validator :=
  { pub_key := [3], stake := 30, geopolitical_zone := "South-East",
    reputation_score := 7, last_active_block := 0 }

/-- Committee containing `wit4_valA` and `wit4_valB` only. -/
def wit4_committee : List ConsensusRs.Validator := [wit4_valA, wit4_valB]

/-- Engine whose validator list also contains the non-member `wit4_valC`. -/
def wit4_engine : ConsensusRs.NaijaConsensusEngine :=
  { current_validators := [wit4_valA, wit4_valB, wit4_valC],
    faulty_nodes_limit := 0 }

/-- Block whose single commit signature's bytes are `[1]`, so the recovered
signer set is exactly the key of `wit4_valA`. -/
def wit4_block : ConsensusRs.Block :=
  { header := { version := 1, prev_block_hash := List.replicate 32 0,
                merkle_root := List.replicate 32 0, timestamp := 0, height := 1 },
    transactions := [],
    pre_prepare_signatures := [[0]],
    prepare_signatures := [[1]],
    commit_signatures := [[1]] }

/-- Snippet-side engine used by the frame-effect witness. -/
def wit10_engine : Snippet.NaijaConsensusEngine :=
  { current_committee := [sampleValidator], faulty_nodes_limit := 0 }

/-- Snippet-side block used by the frame-effect witness. -/
def wit10_block : Snippet.Block :=
  { header := { prev_block_hash := List.replicate 32 0,
                merkle_root := List.replicate 32 0,
                timestamp := 0, height := 100, validator_pub_key := [9],
                pre_prepare_signatures := [[5]],
                prepare_signatures := [[1]],
                commit_signatures := [[1]] },
    transactions := [] }

/-- Public keys of a snippet-side validator list, in order. -/
def Snippet.keys (l : List Snippet.Validator) : List (List Nat) :=
  l.map (fun v => v.pub_key)

/-- Public keys of a `src/src/consensus.rs`-side validator list, in order. -/
def ConsensusRs.keys (l : List ConsensusRs.Validator) : List (List Nat) :=
  l.map (fun v => v.pub_key)

/-- Snippet-side pool of three validators with pairwise-distinct keys. -/
def wit5_pool1 : List Snippet.Validator :=
  [{ pub_key := [1], stake := 10, reputation_score := 4,
     geopolitical_zone := "South-West" },
   { pub_key := [2], stake := 30, reputation_score := 2,
     geopolitical_zone := "North-Central" },
   { pub_key := [3], stake := 20, reputation_score := 9,
     geopolitical_zone := "South-West" }]

/-- Pool of three `src/src/consensus.rs` validators with pairwise-distinct
keys. -/
def wit5_pool2 : List ConsensusRs.Validator :=
  [{ pub_key := [1], stake := 10, geopolitical_zone := "South-West",
     reputation_score := 4, last_active_block := 0 },
   { pub_key := [2], stake := 30, geopolitical_zone := "North-Central",
     reputation_score := 2, last_active_block := 0 },
   { pub_key := [3], stake := 20, geopolitical_zone := "South-West",
     reputation_score := 9, last_active_block := 0 }]

/-- Single snippet-side validator used as an undersized pool. -/
def cex7_validator : Snippet.Validator :=
  { pub_key := [4], stake := 100, reputation_score := 10,
    geopolitical_zone := "North-East" }

/-- Single `src/src/consensus.rs`-side validator used as an undersized pool. -/
def wit7_validator2 : ConsensusRs.Validator :=
  { pub_key := [4], stake := 100, geopolitical_zone := "North-East",
    reputation_score := 10, last_active_block := 0 }

/-! Helper lemmas. -/

/-- Getting an element of a mapped list applies the function to the element
of the original list at the same index. -/
theorem get_map_at {α β : Type} (f : α → β) (l : List α) (i : Nat)
    (h : i < l.length) (h2 : i < (l.map f).length) :
    (l.map f).get ⟨i, h2⟩ = f (l.get ⟨i, h⟩) := by
  simp [List.get_eq_getElem, List.getElem_map]

/-- The snippet's Merkle root function returns the 32-zero-byte vector on
every input: the digest of `combined_hashes` is commented out in the source. -/
theorem calculate_merkle_root_eq_replicate (txs : List Snippet.VoteTransaction) :
    Snippet.calculate_merkle_root txs = List.replicate 32 0 := by
  unfold Snippet.calculate_merkle_root
  split <;> rfl

/-! Claim 9. -/

/-- C9: the Merkle commitment applied to the empty transaction list returns
exactly the all-zero 32-byte sentinel digest and does not fail. -/
theorem claim9_empty_merkle_sentinel :
    Snippet.calculate_merkle_root [] = List.replicate 32 0 := rfl

/-! Claim 8. -/

/-- C8 counterexample: two distinct transactions whose transposition leaves
the Merkle root unchanged, refuting order sensitivity. -/
theorem claim8_counterexample :
    cex8_tx1 ≠ cex8_tx2 ∧
      Snippet.calculate_merkle_root [cex8_tx1, cex8_tx2] =
        Snippet.calculate_merkle_root [cex8_tx2, cex8_tx1] := by
  exact ⟨by decide, by decide⟩

/-- C8 amended: `calculate_merkle_root` is deterministic, but it is not
order-sensitive — it returns the same root (the 32-zero-byte dummy digest)
for every permutation of a transaction list. -/
theorem claim8_amended_perm_invariant (txs txs' : List Snippet.VoteTransaction)
    (h : txs.Perm txs') :
    Snippet.calculate_merkle_root txs = Snippet.calculate_merkle_root txs' := by
  rw [calculate_merkle_root_eq_replicate, calculate_merkle_root_eq_replicate]

/-- C8 witness: the amended theorem applied to the concrete transposition of
`[cex8_tx1, cex8_tx2]`. -/
theorem claim8_witness :
    Snippet.calculate_merkle_root [cex8_tx1, cex8_tx2] =
      Snippet.calculate_merkle_root [cex8_tx2, cex8_tx1] :=
  claim8_amended_perm_invariant [cex8_tx1, cex8_tx2] [cex8_tx2, cex8_tx1]
    (List.Perm.swap cex8_tx2 cex8_tx1 [])

/-! Claim 6. -/

/-- C6 counterexample: for a validator with stake and reputation both
`2 ^ 32`, the composite score computed by the code is 0 (the `u64` product
wraps), not the clamped value `U64_MAX` required by the claim. -/
theorem claim6_counterexample :
    Snippet.composite_score cex6_validator = 0 ∧
      spec_widened_clamped_score cex6_validator.stake
          cex6_validator.reputation_score = U64_MAX ∧
      Snippet.composite_score cex6_validator ≠
        spec_widened_clamped_score cex6_validator.stake
          cex6_validator.reputation_score := by
  refine ⟨by decide, by decide, by decide⟩

/-- C6 amended: in both source files the composite selection score is the
plain `u64` product `stake * reputation_score`, wrapping modulo `2 ^ 64`;
it never exceeds the `u64` range, and it equals the mathematical product
exactly when that product does not exceed `U64_MAX` (no widening and no
clamping is performed). -/
theorem claim6_amended_wrapping_score (v : Snippet.Validator)
    (w : ConsensusRs.Validator)
    (hv : v.stake * v.reputation_score ≤ U64_MAX)
    (hw : w.stake * w.reputation_score ≤ U64_MAX) :
    Snippet.composite_score v = v.stake * v.reputation_score ∧
      Snippet.composite_score v ≤ U64_MAX ∧
      ConsensusRs.composite_score w = w.stake * w.reputation_score ∧
      ConsensusRs.composite_score w ≤ U64_MAX := by
  unfold Snippet.composite_score ConsensusRs.composite_score
  unfold U64_MAX at *
  refine ⟨?_, ?_, ?_, ?_⟩ <;> omega

/-- C6 witness: the amended theorem evaluated on small concrete validators. -/
theorem claim6_witness :
    Snippet.composite_score wit6_validator = 15 ∧
      ConsensusRs.composite_score wit6_validator2 = 42 := by
  have h := claim6_amended_wrapping_score wit6_validator wit6_validator2
    (by decide) (by decide)
  exact ⟨h.1, h.2.2.1⟩

/-! Claim 1. -/

/-- C1 counterexample: with fault limit 1 (threshold `2f+1 = 3`), a block
whose prepare-signature list is three copies of the same signature from one
signer — none of them checked for validity or committee membership — passes
the prepare stage and is in fact finalized. -/
theorem claim1_counterexample :
    cex1_block.header.prepare_signatures = [[7], [7], [7]] ∧
      2 * cex1_engine.faulty_nodes_limit + 1 = 3 ∧
      (Snippet.finalize_block_pbft cex1_engine cex1_block).2 =
        Except.ok cex1_block := by
  refine ⟨rfl, rfl, by decide⟩

/-- C1 amended: `finalize_block_pbft` transitions past the prepare stage if
and only if the raw length of `prepare_signatures` reaches `2f+1`; entries
are not checked for validity, distinctness, or committee membership, so
duplicated signatures from one signer do count toward the quorum. -/
theorem claim1_amended_prepare_guard (e : Snippet.NaijaConsensusEngine)
    (b : Snippet.Block) :
    (Snippet.finalize_block_pbft e b).2 =
        Except.error ("Not enough prepare signatures") ↔
      b.header.prepare_signatures.length < 2 * e.faulty_nodes_limit + 1 := by
  unfold Snippet.finalize_block_pbft
  split_ifs with h1 h2 <;> simp [h1]

/-- C1 witness: the amended theorem's reverse direction at a concrete
under-quorum block, and its forward contrapositive at the duplicate-quorum
block. -/
theorem claim1_witness :
    (Snippet.finalize_block_pbft cex1_engine cex1_low_block).2 =
      Except.error ("Not enough prepare signatures") :=
  (claim1_amended_prepare_guard cex1_engine cex1_low_block).mpr (by decide)

/-! Claim 2. -/

/-- C2 counterexample: a block whose header `merkle_root` differs from the
Merkle root recomputed over its transactions is finalized anyway once the
signature counts suffice; no `InvalidMerkleRoot` failure occurs. -/
theorem claim2_counterexample :
    cex2_block.header.merkle_root ≠
        Snippet.calculate_merkle_root cex2_block.transactions ∧
      (Snippet.finalize_block_pbft cex2_engine cex2_block).2 =
        Except.ok cex2_block := by
  exact ⟨by decide, by decide⟩

/-- C2 amended: `finalize_block_pbft` performs no Merkle-root validation.
Even when the header's `merkle_root` differs from the recomputed Merkle
root of the transaction list, the block is finalized whenever the prepare
and commit signature counts reach `2f+1`; the only failures it can return
are the two signature-count errors. -/
theorem claim2_amended_no_merkle_check (e : Snippet.NaijaConsensusEngine)
    (b : Snippet.Block)
    (hm : b.header.merkle_root ≠ Snippet.calculate_merkle_root b.transactions)
    (h1 : 2 * e.faulty_nodes_limit + 1 ≤ b.header.prepare_signatures.length)
    (h2 : 2 * e.faulty_nodes_limit + 1 ≤ b.header.commit_signatures.length) :
    (Snippet.finalize_block_pbft e b).2 = Except.ok b := by
  unfold Snippet.finalize_block_pbft
  split_ifs with g1 g2
  · omega
  · omega
  · rfl

/-- C2 witness: the amended theorem applied to the concrete tampered block. -/
theorem claim2_witness :
    (Snippet.finalize_block_pbft cex2_engine cex2_block).2 =
      Except.ok cex2_block :=
  claim2_amended_no_merkle_check cex2_engine cex2_block (by decide) (by decide)
    (by decide)

/-! Claim 3. -/

/-- C3 counterexample: a block with an empty `pre_prepare_signatures` list
(absent proposer signature) is finalized, and the call mutates the engine's
committee state (a reputation is decremented), contradicting both halves of
the claim. -/
theorem claim3_counterexample :
    cex3_block.header.pre_prepare_signatures = [] ∧
      (Snippet.finalize_block_pbft cex3_engine cex3_block).2 =
        Except.ok cex3_block ∧
      (Snippet.finalize_block_pbft cex3_engine cex3_block).1 ≠ cex3_engine := by
  refine ⟨rfl, by decide, by decide⟩

/-- C3 amended: `finalize_block_pbft` performs no proposer validation — a
block whose proposer signature is absent is still finalized whenever the
signature-count thresholds are met, and `InvalidProposer` is never
returned; on the other hand, whenever the call does fail (with a
signature-count error) the engine's committee state, including every
reputation score, is unchanged. -/
theorem claim3_amended_no_proposer_check (e : Snippet.NaijaConsensusEngine)
    (b : Snippet.Block)
    (hpre : b.header.pre_prepare_signatures = []) :
    ((2 * e.faulty_nodes_limit + 1 ≤ b.header.prepare_signatures.length ∧
        2 * e.faulty_nodes_limit + 1 ≤ b.header.commit_signatures.length) →
      (Snippet.finalize_block_pbft e b).2 = Except.ok b) ∧
    (∀ s, (Snippet.finalize_block_pbft e b).2 = Except.error s →
      (Snippet.finalize_block_pbft e b).1 = e) := by
  unfold Snippet.finalize_block_pbft
  split_ifs with g1 g2
  · exact ⟨fun h => absurd h.1 (by omega), fun s _ => rfl⟩
  · exact ⟨fun h => absurd h.2 (by omega), fun s _ => rfl⟩
  · exact ⟨fun _ => rfl, fun s hs => by exact absurd hs (by simp)⟩

/-- C3 witness: the amended theorem applied to the concrete
proposer-signature-free blocks — one that finalizes, one that fails with the
engine left unchanged. -/
theorem claim3_witness :
    (Snippet.finalize_block_pbft cex3_engine cex3_block).2 =
        Except.ok cex3_block ∧
      (Snippet.finalize_block_pbft cex3_engine cex3_fail_block).1 =
        cex3_engine := by
  refine ⟨(claim3_amended_no_proposer_check cex3_engine cex3_block rfl).1
    ⟨by decide, by decide⟩, ?_⟩
  exact (claim3_amended_no_proposer_check cex3_engine cex3_fail_block rfl).2
    ("Not enough prepare signatures") (by decide)

/-- Element-wise description of the `src/src/consensus.rs` reputation
update: the validator at index `i` is mapped through the per-validator
update function. -/
theorem consensusRs_update_get (e : ConsensusRs.NaijaConsensusEngine)
    (b : ConsensusRs.Block) (committee : List ConsensusRs.Validator)
    (i : Nat) (h : i < e.current_validators.length)
    (h2 : i < (ConsensusRs.update_reputations_for_block e b
        committee).current_validators.length) :
    (ConsensusRs.update_reputations_for_block e b
        committee).current_validators.get ⟨i, h2⟩ =
      (if ∃ w ∈ committee,
          w.pub_key = (e.current_validators.get ⟨i, h⟩).pub_key then
        if (e.current_validators.get ⟨i, h⟩).pub_key ∈
            ConsensusRs.participating_keys b then
          { e.current_validators.get ⟨i, h⟩ with
              reputation_score := u64_saturating_add
                (e.current_validators.get ⟨i, h⟩).reputation_score 1 }
        else
          { e.current_validators.get ⟨i, h⟩ with
              reputation_score := u64_saturating_sub
                (e.current_validators.get ⟨i, h⟩).reputation_score 5 }
      else e.current_validators.get ⟨i, h⟩) := by
  simp [ConsensusRs.update_reputations_for_block, List.get_eq_getElem,
    List.getElem_map]

/-- Element-wise description of the snippet reputation update. -/
theorem snippet_update_get (e : Snippet.NaijaConsensusEngine)
    (b : Snippet.Block) (i : Nat) (h : i < e.current_committee.length)
    (h2 : i < (Snippet.update_reputations_for_block e
        b).current_committee.length) :
    (Snippet.update_reputations_for_block e b).current_committee.get ⟨i, h2⟩ =
      (if (e.current_committee.get ⟨i, h⟩).pub_key ∈
          Snippet.committed_validators b then
        { e.current_committee.get ⟨i, h⟩ with
            reputation_score := u64_saturating_add
              (e.current_committee.get ⟨i, h⟩).reputation_score 1 }
      else
        { e.current_committee.get ⟨i, h⟩ with
            reputation_score := u64_saturating_sub
              (e.current_committee.get ⟨i, h⟩).reputation_score 5 }) := by
  simp [Snippet.update_reputations_for_block, List.get_eq_getElem,
    List.getElem_map]

/-! Claim 4. -/

/-- C4: the reputation update of `src/src/consensus.rs` preserves the length
and ordering of the validator list, and at each index: a committee member
whose key is among the recovered commit signers gains exactly 1 reputation
point saturating at `U64_MAX`; a committee member whose key is not among
them loses exactly 5 points saturating at 0 (truncated `Nat` subtraction);
a validator outside the committee is untouched. -/
theorem claim4_reputation_update (e : ConsensusRs.NaijaConsensusEngine)
    (b : ConsensusRs.Block) (committee : List ConsensusRs.Validator)
    (i : Nat) (h : i < e.current_validators.length) :
    (ConsensusRs.update_reputations_for_block e b
        committee).current_validators.length = e.current_validators.length ∧
    ∃ h2 : i < (ConsensusRs.update_reputations_for_block e b
        committee).current_validators.length,
      ((∃ w ∈ committee,
          w.pub_key = (e.current_validators.get ⟨i, h⟩).pub_key) →
        ((e.current_validators.get ⟨i, h⟩).pub_key ∈
            ConsensusRs.participating_keys b →
          ((ConsensusRs.update_reputations_for_block e b
              committee).current_validators.get ⟨i, h2⟩).reputation_score =
            Nat.min ((e.current_validators.get ⟨i, h⟩).reputation_score + 1)
              U64_MAX) ∧
        ((e.current_validators.get ⟨i, h⟩).pub_key ∉
            ConsensusRs.participating_keys b →
          ((ConsensusRs.update_reputations_for_block e b
              committee).current_validators.get ⟨i, h2⟩).reputation_score =
            (e.current_validators.get ⟨i, h⟩).reputation_score - 5)) ∧
      ((¬ ∃ w ∈ committee,
          w.pub_key = (e.current_validators.get ⟨i, h⟩).pub_key) →
        (ConsensusRs.update_reputations_for_block e b
            committee).current_validators.get ⟨i, h2⟩ =
          e.current_validators.get ⟨i, h⟩) := by
  have hlen : (ConsensusRs.update_reputations_for_block e b
      committee).current_validators.length = e.current_validators.length := by
    simp [ConsensusRs.update_reputations_for_block]
  have h2 : i < (ConsensusRs.update_reputations_for_block e b
      committee).current_validators.length := Nat.lt_of_lt_of_eq h hlen.symm
  refine ⟨hlen, h2, ?_, ?_⟩
  · intro hcom
    constructor
    · intro hpart
      rw [consensusRs_update_get e b committee i h h2, if_pos hcom,
        if_pos hpart]
      rfl
    · intro hnpart
      rw [consensusRs_update_get e b committee i h h2, if_pos hcom,
        if_neg hnpart]
      rfl
  · intro hncom
    rw [consensusRs_update_get e b committee i h h2, if_neg hncom]

/-- C4 witness: in the concrete engine, the committee member with key `[1]`
(the recovered signer of the only commit signature) moves from reputation 50
to 51. -/
theorem claim4_witness :
    ∃ hb : 0 < (ConsensusRs.update_reputations_for_block wit4_engine
        wit4_block wit4_committee).current_validators.length,
      ((ConsensusRs.update_reputations_for_block wit4_engine wit4_block
          wit4_committee).current_validators.get ⟨0, hb⟩).reputation_score =
        51 := by
  obtain ⟨hlen, hb, hmem, hout⟩ :=
    claim4_reputation_update wit4_engine wit4_block wit4_committee 0 (by decide)
  refine ⟨hb, ?_⟩
  rw [(hmem (by decide)).1 (by decide)]
  decide

/-! Claim 10. -/

/-- C10: both reputation updates modify only the `reputation_score` field:
the validator lists keep their length, and at every index the `pub_key`,
`stake`, and `geopolitical_zone` fields are unchanged. -/
theorem claim10_frame (e1 : Snippet.NaijaConsensusEngine) (b1 : Snippet.Block)
    (e2 : ConsensusRs.NaijaConsensusEngine) (b2 : ConsensusRs.Block)
    (committee : List ConsensusRs.Validator) (i j : Nat)
    (h1 : i < e1.current_committee.length)
    (h2 : j < e2.current_validators.length) :
    ((Snippet.update_reputations_for_block e1 b1).current_committee.length =
        e1.current_committee.length ∧
      ∃ hb : i < (Snippet.update_reputations_for_block
          e1 b1).current_committee.length,
        ((Snippet.update_reputations_for_block e1 b1).current_committee.get
            ⟨i, hb⟩).pub_key = (e1.current_committee.get ⟨i, h1⟩).pub_key ∧
        ((Snippet.update_reputations_for_block e1 b1).current_committee.get
            ⟨i, hb⟩).stake = (e1.current_committee.get ⟨i, h1⟩).stake ∧
        ((Snippet.update_reputations_for_block e1 b1).current_committee.get
            ⟨i, hb⟩).geopolitical_zone =
          (e1.current_committee.get ⟨i, h1⟩).geopolitical_zone) ∧
    ((ConsensusRs.update_reputations_for_block e2 b2
        committee).current_validators.length = e2.current_validators.length ∧
      ∃ hc : j < (ConsensusRs.update_reputations_for_block e2 b2
          committee).current_validators.length,
        ((ConsensusRs.update_reputations_for_block e2 b2
            committee).current_validators.get ⟨j, hc⟩).pub_key =
          (e2.current_validators.get ⟨j, h2⟩).pub_key ∧
        ((ConsensusRs.update_reputations_for_block e2 b2
            committee).current_validators.get ⟨j, hc⟩).stake =
          (e2.current_validators.get ⟨j, h2⟩).stake ∧
        ((ConsensusRs.update_reputations_for_block e2 b2
            committee).current_validators.get ⟨j, hc⟩).geopolitical_zone =
          (e2.current_validators.get ⟨j, h2⟩).geopolitical_zone) := by
  have hlen1 : (Snippet.update_reputations_for_block
      e1 b1).current_committee.length = e1.current_committee.length := by
    simp [Snippet.update_reputations_for_block]
  have hlen2 : (ConsensusRs.update_reputations_for_block e2 b2
      committee).current_validators.length = e2.current_validators.length := by
    simp [ConsensusRs.update_reputations_for_block]
  have hb : i < (Snippet.update_reputations_for_block
      e1 b1).current_committee.length := Nat.lt_of_lt_of_eq h1 hlen1.symm
  have hc : j < (ConsensusRs.update_reputations_for_block e2 b2
      committee).current_validators.length := Nat.lt_of_lt_of_eq h2 hlen2.symm
  refine ⟨⟨hlen1, hb, ?_, ?_, ?_⟩, ⟨hlen2, hc, ?_, ?_, ?_⟩⟩ <;>
    first
      | (rw [snippet_update_get e1 b1 i h1 hb]; split <;> rfl)
      | (rw [consensusRs_update_get e2 b2 committee j h2 hc]
         split
         · split <;> rfl
         · rfl)

/-- C10 witness: the frame theorem evaluated at index 0 of the concrete
engines: the key, stake and zone of the first validator are unchanged on
both sides. -/
theorem claim10_witness :
    ∃ hb : 0 < (Snippet.update_reputations_for_block wit10_engine
        wit10_block).current_committee.length,
      ((Snippet.update_reputations_for_block wit10_engine
          wit10_block).current_committee.get ⟨0, hb⟩).pub_key = [1] ∧
      ((Snippet.update_reputations_for_block wit10_engine
          wit10_block).current_committee.get ⟨0, hb⟩).stake = 1000 ∧
      ((Snippet.update_reputations_for_block wit10_engine
          wit10_block).current_committee.get ⟨0, hb⟩).geopolitical_zone =
        "South-West" := by
  obtain ⟨⟨hlen1, hb, hpk, hst, hz⟩, _⟩ :=
    claim10_frame wit10_engine wit10_block wit4_engine wit4_block
      wit4_committee 0 0 (by decide) (by decide)
  exact ⟨hb, hpk.trans (by decide), hst.trans (by decide),
    hz.trans (by decide)⟩

/-- Membership in `keys` is existence of a validator with that key. -/
theorem Snippet.mem_keys {k : List Nat} {l : List Snippet.Validator} :
    k ∈ Snippet.keys l ↔ ∃ w ∈ l, w.pub_key = k := by
  simp [Snippet.keys]

/-- The `keys` function distributes over append. -/
theorem Snippet.keys_append (l1 l2 : List Snippet.Validator) :
    Snippet.keys (l1 ++ l2) = Snippet.keys l1 ++ Snippet.keys l2 := by
  simp [Snippet.keys]

/-- Appending a validator with a fresh key keeps the key list duplicate-free. -/
theorem Snippet.nodup_keys_append {sel : List Snippet.Validator}
    {v : Snippet.Validator} (h : (Snippet.keys sel).Nodup)
    (hv : ¬ ∃ w ∈ sel, w.pub_key = v.pub_key) :
    (Snippet.keys (sel ++ [v])).Nodup := by
  rw [Snippet.keys_append]
  refine List.Nodup.append h (List.nodup_singleton _) ?_
  intro a ha hb
  rcases List.mem_singleton.mp hb with rfl
  exact hv (Snippet.mem_keys.mp ha)

/-- A zone-loop step either leaves the accumulator unchanged, or appends a
validator with a fresh key and bumps the per-zone count, which must have
been below the quota. -/
theorem Snippet.zoneStep_cases (z : String) (m : Nat)
    (sel : List Snippet.Validator) (c : Nat) (a : Snippet.Validator) :
    Snippet.zoneStep z m (sel, c) a = (sel, c) ∨
      ((¬ ∃ w ∈ sel, w.pub_key = a.pub_key) ∧ c < m ∧
        Snippet.zoneStep z m (sel, c) a = (sel ++ [a], c + 1)) := by
  unfold Snippet.zoneStep
  split_ifs with h1 h2
  · exact Or.inl rfl
  · exact Or.inr ⟨h2, h1.2, rfl⟩
  · exact Or.inl rfl

/-- Every validator selected by a zone pass comes from the initial selection
or from the scanned list. -/
theorem Snippet.zone_fold_mem (z : String) (m : Nat) :
    ∀ (l sel : List Snippet.Validator) (c : Nat) (v : Snippet.Validator),
      v ∈ (l.foldl (Snippet.zoneStep z m) (sel, c)).1 → v ∈ sel ∨ v ∈ l := by
  intro l
  induction l with
  | nil =>
    intro sel c v hv
    exact Or.inl (by simpa using hv)
  | cons a t ih =>
    intro sel c v hv
    rw [List.foldl_cons] at hv
    rcases Snippet.zoneStep_cases z m sel c a with heq | ⟨hf, hc, heq⟩ <;>
      rw [heq] at hv
    · rcases ih sel c v hv with h | h
      · exact Or.inl h
      · exact Or.inr (List.mem_cons_of_mem a h)
    · rcases ih (sel ++ [a]) (c + 1) v hv with h | h
      · rcases List.mem_append.mp h with h | h
        · exact Or.inl h
        · exact Or.inr (List.mem_cons.mpr (Or.inl (List.mem_singleton.mp h)))
      · exact Or.inr (List.mem_cons_of_mem a h)

/-- A zone pass preserves duplicate-freeness of the selected keys. -/
theorem Snippet.zone_fold_nodup (z : String) (m : Nat) :
    ∀ (l sel : List Snippet.Validator) (c : Nat),
      (Snippet.keys sel).Nodup →
      (Snippet.keys (l.foldl (Snippet.zoneStep z m) (sel, c)).1).Nodup := by
  intro l
  induction l with
  | nil =>
    intro sel c h
    simpa using h
  | cons a t ih =>
    intro sel c h
    rw [List.foldl_cons]
    rcases Snippet.zoneStep_cases z m sel c a with heq | ⟨hf, hc, heq⟩ <;>
      rw [heq]
    · exact ih sel c h
    · exact ih (sel ++ [a]) (c + 1) (Snippet.nodup_keys_append h hf)

/-- A zone pass starting with count `c ≤ m` adds at most `m - c` validators. -/
theorem Snippet.zone_fold_len (z : String) (m : Nat) :
    ∀ (l sel : List Snippet.Validator) (c : Nat), c ≤ m →
      (l.foldl (Snippet.zoneStep z m) (sel, c)).1.length + c ≤
        sel.length + m := by
  intro l
  induction l with
  | nil =>
    intro sel c hc
    simpa using Nat.add_le_add_left hc sel.length
  | cons a t ih =>
    intro sel c hc
    rw [List.foldl_cons]
    rcases Snippet.zoneStep_cases z m sel c a with heq | ⟨hf, hclt, heq⟩ <;>
      rw [heq]
    · exact ih sel c hc
    · have := ih (sel ++ [a]) (c + 1) hclt
      simp only [List.length_append, List.length_singleton] at this
      omega

/-- Validators produced by the whole sequence of zone passes come from the
initial selection or from the sorted pool. -/
theorem Snippet.zones_fold_mem (sorted : List Snippet.Validator) (m : Nat) :
    ∀ (zs : List String) (sel : List Snippet.Validator) (v : Snippet.Validator),
      v ∈ zs.foldl (Snippet.zonePass sorted m) sel → v ∈ sel ∨ v ∈ sorted := by
  intro zs
  induction zs with
  | nil =>
    intro sel v hv
    exact Or.inl (by simpa using hv)
  | cons z t ih =>
    intro sel v hv
    rw [List.foldl_cons] at hv
    rcases ih (Snippet.zonePass sorted m sel z) v hv with h | h
    · exact Snippet.zone_fold_mem z m sorted sel 0 v h
    · exact Or.inr h

/-- The whole sequence of zone passes preserves duplicate-freeness of keys. -/
theorem Snippet.zones_fold_nodup (sorted : List Snippet.Validator) (m : Nat) :
    ∀ (zs : List String) (sel : List Snippet.Validator),
      (Snippet.keys sel).Nodup →
      (Snippet.keys (zs.foldl (Snippet.zonePass sorted m) sel)).Nodup := by
  intro zs
  induction zs with
  | nil =>
    intro sel h
    simpa using h
  | cons z t ih =>
    intro sel h
    rw [List.foldl_cons]
    exact ih (Snippet.zonePass sorted m sel z)
      (Snippet.zone_fold_nodup z m sorted sel 0 h)

/-- Each zone pass adds at most `m` validators, so the whole sequence adds
at most `zs.length * m`. -/
theorem Snippet.zones_fold_len (sorted : List Snippet.Validator) (m : Nat) :
    ∀ (zs : List String) (sel : List Snippet.Validator),
      (zs.foldl (Snippet.zonePass sorted m) sel).length ≤
        sel.length + zs.length * m := by
  intro zs
  induction zs with
  | nil =>
    intro sel
    simp
  | cons z t ih =>
    intro sel
    rw [List.foldl_cons]
    have h1 := ih (Snippet.zonePass sorted m sel z)
    have h2 : (Snippet.zonePass sorted m sel z).length ≤ sel.length + m := by
      have := Snippet.zone_fold_len z m sorted sel 0 (Nat.zero_le m)
      unfold Snippet.zonePass
      omega
    rw [List.length_cons, Nat.succ_mul]
    omega

/-- A fill-loop step either leaves the selection unchanged, or appends a
fresh-keyed validator to a selection that still has room. -/
theorem Snippet.fillStep_cases (N : Nat) (sel : List Snippet.Validator)
    (a : Snippet.Validator) :
    Snippet.fillStep N sel a = sel ∨
      ((¬ ∃ w ∈ sel, w.pub_key = a.pub_key) ∧ sel.length < N ∧
        Snippet.fillStep N sel a = sel ++ [a]) := by
  unfold Snippet.fillStep
  split_ifs with h1 h2
  · exact Or.inl rfl
  · exact Or.inr ⟨h2, h1, rfl⟩
  · exact Or.inl rfl

/-- Every validator selected by the fill loop comes from the initial
selection or from the scanned list. -/
theorem Snippet.fill_fold_mem (N : Nat) :
    ∀ (l sel : List Snippet.Validator) (v : Snippet.Validator),
      v ∈ l.foldl (Snippet.fillStep N) sel → v ∈ sel ∨ v ∈ l := by
  intro l
  induction l with
  | nil =>
    intro sel v hv
    exact Or.inl hv
  | cons a t ih =>
    intro sel v hv
    rw [List.foldl_cons] at hv
    rcases Snippet.fillStep_cases N sel a with heq | ⟨hf, hlt, heq⟩ <;>
      rw [heq] at hv
    · rcases ih sel v hv with h | h
      · exact Or.inl h
      · exact Or.inr (List.mem_cons_of_mem a h)
    · rcases ih (sel ++ [a]) v hv with h | h
      · rcases List.mem_append.mp h with h | h
        · exact Or.inl h
        · exact Or.inr (List.mem_cons.mpr (Or.inl (List.mem_singleton.mp h)))
      · exact Or.inr (List.mem_cons_of_mem a h)

/-- The fill loop preserves duplicate-freeness of the selected keys. -/
theorem Snippet.fill_fold_nodup (N : Nat) :
    ∀ (l sel : List Snippet.Validator),
      (Snippet.keys sel).Nodup →
      (Snippet.keys (l.foldl (Snippet.fillStep N) sel)).Nodup := by
  intro l
  induction l with
  | nil =>
    intro sel h
    exact h
  | cons a t ih =>
    intro sel h
    rw [List.foldl_cons]
    rcases Snippet.fillStep_cases N sel a with heq | ⟨hf, hlt, heq⟩ <;> rw [heq]
    · exact ih sel h
    · exact ih (sel ++ [a]) (Snippet.nodup_keys_append h hf)

/-- The fill loop never grows the selection beyond the committee size. -/
theorem Snippet.fill_fold_len (N : Nat) :
    ∀ (l sel : List Snippet.Validator), sel.length ≤ N →
      (l.foldl (Snippet.fillStep N) sel).length ≤ N := by
  intro l
  induction l with
  | nil =>
    intro sel h
    exact h
  | cons a t ih =>
    intro sel h
    rw [List.foldl_cons]
    rcases Snippet.fillStep_cases N sel a with heq | ⟨hf, hlt, heq⟩ <;> rw [heq]
    · exact ih sel h
    · refine ih (sel ++ [a]) ?_
      simp only [List.length_append, List.length_singleton]
      omega

/-- The fill loop only appends: its result extends the initial selection. -/
theorem Snippet.fill_fold_ext (N : Nat) :
    ∀ (l sel : List Snippet.Validator),
      ∃ ext, l.foldl (Snippet.fillStep N) sel = sel ++ ext := by
  intro l
  induction l with
  | nil =>
    intro sel
    exact ⟨[], by simp⟩
  | cons a t ih =>
    intro sel
    rw [List.foldl_cons]
    rcases Snippet.fillStep_cases N sel a with heq | ⟨hf, hlt, heq⟩ <;> rw [heq]
    · exact ih sel
    · obtain ⟨ext, hext⟩ := ih (sel ++ [a])
      exact ⟨[a] ++ ext, by rw [hext, List.append_assoc]⟩

/-- Once the selection is full, the fill loop is the identity. -/
theorem Snippet.fill_fold_stop (N : Nat) :
    ∀ (l sel : List Snippet.Validator), N ≤ sel.length →
      l.foldl (Snippet.fillStep N) sel = sel := by
  intro l
  induction l with
  | nil =>
    intro sel _
    rfl
  | cons a t ih =>
    intro sel h
    rw [List.foldl_cons]
    have hstep : Snippet.fillStep N sel a = sel := by
      unfold Snippet.fillStep
      rw [if_neg (by omega)]
    rw [hstep]
    exact ih sel h

/-- After the fill loop, either the committee is exactly full, or the key of
every scanned validator appears among the selected keys. -/
theorem Snippet.fill_fold_full_or_mem (N : Nat) :
    ∀ (l sel : List Snippet.Validator), sel.length ≤ N →
      (l.foldl (Snippet.fillStep N) sel).length = N ∨
        ∀ v ∈ l, v.pub_key ∈ Snippet.keys (l.foldl (Snippet.fillStep N) sel) := by
  intro l
  induction l with
  | nil =>
    intro sel _
    exact Or.inr (fun v hv => absurd hv (List.not_mem_nil v))
  | cons a t ih =>
    intro sel hle
    rw [List.foldl_cons]
    rcases Nat.lt_or_ge sel.length N with hlt | hge
    · rcases Snippet.fillStep_cases N sel a with heq | ⟨hf, _, heq⟩ <;> rw [heq]
      · rcases ih sel hle with h | h
        · exact Or.inl h
        · refine Or.inr (fun v hv => ?_)
          rcases List.mem_cons.mp hv with rfl | hvt
          · obtain ⟨ext, hext⟩ := Snippet.fill_fold_ext N t sel
            rw [hext, Snippet.keys_append]
            refine List.mem_append_left _ (Snippet.mem_keys.mpr ?_)
            by_contra hc
            push_neg at hc
            unfold Snippet.fillStep at heq
            rw [if_pos hlt] at heq
            by_cases hdup : ∃ w ∈ sel, w.pub_key = v.pub_key
            · exact absurd hdup (by simpa using hc)
            · rw [if_neg hdup] at heq
              exact absurd heq (by simp)
          · exact h v hvt
      · rcases ih (sel ++ [a])
            (by simp only [List.length_append, List.length_singleton]; omega)
          with h | h
        · exact Or.inl h
        · refine Or.inr (fun v hv => ?_)
          rcases List.mem_cons.mp hv with rfl | hvt
          · obtain ⟨ext, hext⟩ := Snippet.fill_fold_ext N t (sel ++ [v])
            rw [hext, Snippet.keys_append]
            refine List.mem_append_left _ ?_
            rw [Snippet.keys_append]
            exact List.mem_append_right _ (by simp [Snippet.keys])
          · exact h v hvt
    · have hstep : Snippet.fillStep N sel a = sel := by
        unfold Snippet.fillStep
        rw [if_neg (by omega)]
      rw [hstep, Snippet.fill_fold_stop N t sel hge]
      exact Or.inl (by omega)

/-- Full characterization used by claims 5 and 7: the snippet committee
selection only picks pool validators, keeps keys duplicate-free, never
exceeds the committee size, and is either exactly full or contains the key
of every pool validator. -/
theorem Snippet.select_spec (pool : List Snippet.Validator) (N : Nat) :
    (∀ v ∈ Snippet.select_election_validators pool N, v ∈ pool) ∧
    (Snippet.keys (Snippet.select_election_validators pool N)).Nodup ∧
    (Snippet.select_election_validators pool N).length ≤ N ∧
    ((Snippet.select_election_validators pool N).length = N ∨
      ∀ v ∈ pool, v.pub_key ∈
        Snippet.keys (Snippet.select_election_validators pool N)) := by
  have hperm : List.Perm (Snippet.sortedByScore pool) pool :=
    List.perm_insertionSort _ pool
  have hsel : Snippet.select_election_validators pool N =
      (Snippet.sortedByScore pool).foldl (Snippet.fillStep N)
        (Snippet.zones.foldl
          (Snippet.zonePass (Snippet.sortedByScore pool)
            (N / Snippet.zones.length)) []) := rfl
  set m := N / Snippet.zones.length with hm
  set sorted := Snippet.sortedByScore pool with hsorted
  set A := Snippet.zones.foldl (Snippet.zonePass sorted m) [] with hA
  have h6 : Snippet.zones.length = 6 := rfl
  have hA_len : A.length ≤ N := by
    have hfold := Snippet.zones_fold_len sorted m Snippet.zones []
    have hdiv : m * 6 ≤ N := by
      rw [hm, h6]
      exact Nat.div_mul_le_self N 6
    rw [hA]
    simp only [h6, List.length_nil] at hfold
    omega
  have hA_nodup : (Snippet.keys A).Nodup :=
    Snippet.zones_fold_nodup sorted m Snippet.zones [] (by simp [Snippet.keys])
  have hA_mem : ∀ v ∈ A, v ∈ sorted := by
    intro v hv
    rcases Snippet.zones_fold_mem sorted m Snippet.zones [] v hv with h | h
    · exact absurd h (List.not_mem_nil v)
    · exact h
  rw [hsel]
  refine ⟨?_, ?_, ?_, ?_⟩
  · intro v hv
    rcases Snippet.fill_fold_mem N sorted A v hv with h | h
    · exact hperm.mem_iff.mp (hA_mem v h)
    · exact hperm.mem_iff.mp h
  · exact Snippet.fill_fold_nodup N sorted A hA_nodup
  · exact Snippet.fill_fold_len N sorted A hA_len
  · rcases Snippet.fill_fold_full_or_mem N sorted A hA_len with h | h
    · exact Or.inl h
    · exact Or.inr (fun v hv => h v (hperm.mem_iff.mpr hv))

/-- Once the Rust `break` of `select_validators` has fired, the rest of the
loop does nothing. -/
theorem ConsensusRs.fold_done (m N : Nat) :
    ∀ (l sel : List ConsensusRs.Validator),
      l.foldl (ConsensusRs.selStep m N) (sel, true) = (sel, true) := by
  intro l
  induction l with
  | nil =>
    intro sel
    rfl
  | cons a t ih =>
    intro sel
    rw [List.foldl_cons]
    have hstep : ConsensusRs.selStep m N (sel, true) a = (sel, true) := by
      unfold ConsensusRs.selStep
      rw [if_pos rfl]
    rw [hstep]
    exact ih sel

/-- As long as the committee is not full, every iteration of
`select_validators` pushes the scanned validator (the push condition's
second disjunct holds), so the loop takes the first `N - sel.length`
validators of the remaining list. -/
theorem ConsensusRs.fold_take (m N : Nat) :
    ∀ (l sel : List ConsensusRs.Validator), sel.length < N →
      (l.foldl (ConsensusRs.selStep m N) (sel, false)).1 =
        sel ++ l.take (N - sel.length) := by
  intro l
  induction l with
  | nil =>
    intro sel h
    simp
  | cons a t ih =>
    intro sel h
    rw [List.foldl_cons]
    have hstep : ConsensusRs.selStep m N (sel, false) a =
        (sel ++ [a], ((sel ++ [a]).length == N)) := by
      unfold ConsensusRs.selStep
      rw [if_neg (by simp)]
      simp only []
      rw [if_pos (Or.inr h)]
    rw [hstep]
    rcases Nat.lt_or_ge (sel ++ [a]).length N with hlt | hge
    · have hbeq : ((sel ++ [a]).length == N) = false := by
        rw [beq_eq_false_iff_ne]
        omega
      rw [hbeq, ih (sel ++ [a]) hlt]
      have hk : N - sel.length = (N - (sel ++ [a]).length) + 1 := by
        simp only [List.length_append, List.length_singleton]
        omega
      rw [hk, List.take_succ_cons, List.append_assoc, List.singleton_append]
    · have heqN : (sel ++ [a]).length = N := by
        simp only [List.length_append, List.length_singleton] at hge ⊢
        omega
      have hbeq : ((sel ++ [a]).length == N) = true := beq_iff_eq.mpr heqN
      rw [hbeq, ConsensusRs.fold_done m N t (sel ++ [a])]
      have hk : N - sel.length = 1 := by
        simp only [List.length_append, List.length_singleton] at heqN
        omega
      rw [hk, List.take_succ_cons, List.take_zero]

/-- With a zero zone quota and a zero committee size, `select_validators`
pushes nothing and breaks at once. -/
theorem ConsensusRs.fold_zero :
    ∀ (l : List ConsensusRs.Validator),
      (l.foldl (ConsensusRs.selStep 0 0) ([], false)).1 = [] := by
  intro l
  cases l with
  | nil => rfl
  | cons a t =>
    rw [List.foldl_cons]
    have hstep : ConsensusRs.selStep 0 0 ([], false) a = ([], true) := by
      unfold ConsensusRs.selStep
      rw [if_neg (by simp)]
      simp only []
      rw [if_neg (by simp)]
      rfl
    rw [hstep, ConsensusRs.fold_done 0 0 t []]

/-- For a positive committee size, `select_validators` returns the first
`total_committee_size` validators of the score-sorted pool, for every value
of the zone quota. -/
theorem ConsensusRs.select_take (pool : List ConsensusRs.Validator)
    (m N : Nat) (hN : 0 < N) :
    ConsensusRs.select_validators pool m N =
      (ConsensusRs.sortedByScore pool).take N := by
  unfold ConsensusRs.select_validators
  rw [ConsensusRs.fold_take m N (ConsensusRs.sortedByScore pool) []
    (by simpa using hN)]
  simp

/-! Claim 5. -/

/-- C5: for pools with pairwise-distinct public keys and committee size
`N ≤ |pool|`, both selection functions return exactly `N` pairwise-distinct
validators, each from the pool.  For `select_validators` of
`src/src/consensus.rs` this holds for every zone quota `m` when `N > 0` and
for the spec's quota `m = N / 6 = 0` when `N = 0` (with `N = 0` and a
positive quota that function overshoots, since its break test `len == total`
is only checked after a push). -/
theorem claim5_select_exact (pool1 : List Snippet.Validator)
    (pool2 : List ConsensusRs.Validator) (N : Nat)
    (h1 : (Snippet.keys pool1).Nodup) (hN1 : N ≤ pool1.length)
    (h2 : (ConsensusRs.keys pool2).Nodup) (hN2 : N ≤ pool2.length) :
    ((Snippet.select_election_validators pool1 N).length = N ∧
      (Snippet.select_election_validators pool1 N).Nodup ∧
      ∀ v ∈ Snippet.select_election_validators pool1 N, v ∈ pool1) ∧
    (∀ m : Nat, 0 < N ∨ m = 0 →
      (ConsensusRs.select_validators pool2 m N).length = N ∧
      (ConsensusRs.select_validators pool2 m N).Nodup ∧
      ∀ v ∈ ConsensusRs.select_validators pool2 m N, v ∈ pool2) := by
  constructor
  · obtain ⟨hmem, hknodup, hle, hlast⟩ := Snippet.select_spec pool1 N
    have hlen : (Snippet.select_election_validators pool1 N).length = N := by
      rcases hlast with h | hall
      · exact h
      · have hsub : Snippet.keys pool1 ⊆
            Snippet.keys (Snippet.select_election_validators pool1 N) := by
          intro k hk
          obtain ⟨w, hw, rfl⟩ := Snippet.mem_keys.mp hk
          exact hall w hw
        have hlenle : pool1.length ≤
            (Snippet.select_election_validators pool1 N).length := by
          have := (List.subperm_of_subset h1 hsub).length_le
          simpa [Snippet.keys] using this
        omega
    exact ⟨hlen, List.Nodup.of_map _ hknodup, hmem⟩
  · intro m hm
    have hperm : List.Perm (ConsensusRs.sortedByScore pool2) pool2 :=
      List.perm_insertionSort _ pool2
    rcases Nat.eq_zero_or_pos N with hN0 | hNpos
    · have hmz : m = 0 := by omega
      subst hmz
      subst hN0
      have hz : ConsensusRs.select_validators pool2 0 0 = [] := by
        unfold ConsensusRs.select_validators
        exact ConsensusRs.fold_zero (ConsensusRs.sortedByScore pool2)
      rw [hz]
      exact ⟨rfl, List.nodup_nil, fun v hv => absurd hv (List.not_mem_nil v)⟩
    · rw [ConsensusRs.select_take pool2 m N hNpos]
      refine ⟨?_, ?_, ?_⟩
      · rw [List.length_take, hperm.length_eq]
        omega
      · exact List.Nodup.sublist (List.take_sublist N _)
          (hperm.nodup_iff.mpr (List.Nodup.of_map _ h2))
      · intro v hv
        exact hperm.mem_iff.mp (List.take_subset N _ hv)

/-- C5 witness: both selections on concrete three-validator pools with
committee size 2 return committees of exactly two validators. -/
theorem claim5_witness :
    (Snippet.select_election_validators wit5_pool1 2).length = 2 ∧
      (ConsensusRs.select_validators wit5_pool2 0 2).length = 2 := by
  have h := claim5_select_exact wit5_pool1 wit5_pool2 2 (by decide) (by decide)
    (by decide) (by decide)
  exact ⟨h.1.1, (h.2 0 (Or.inl (by decide))).1⟩

/-! Claim 7. -/

/-- C7 counterexample: a pool of one validator cannot fill a committee of
three, yet `select_election_validators` succeeds and returns the undersized
one-validator committee — there is no `InsufficientValidators` error (the
function's return type has no error case at all). -/
theorem claim7_counterexample :
    Snippet.select_election_validators [cex7_validator] 3 = [cex7_validator] ∧
      (Snippet.select_election_validators [cex7_validator] 3).length ≠ 3 := by
  exact ⟨by decide, by decide⟩

/-- C7 amended: when the pool cannot fill `committee_size` seats, the
selection does not fail — its return type has no error case.
`select_election_validators` returns an undersized committee containing
every pool validator exactly once, and `select_validators` returns the
whole score-sorted pool. -/
theorem claim7_amended_undersized (pool1 : List Snippet.Validator)
    (pool2 : List ConsensusRs.Validator) (N m : Nat)
    (h1 : (Snippet.keys pool1).Nodup)
    (hN1 : pool1.length < N) (hN2 : pool2.length < N) :
    ((Snippet.select_election_validators pool1 N).length = pool1.length ∧
      ∀ v ∈ pool1, v ∈ Snippet.select_election_validators pool1 N) ∧
    ((ConsensusRs.select_validators pool2 m N).length = pool2.length ∧
      ∀ v ∈ pool2, v ∈ ConsensusRs.select_validators pool2 m N) := by
  constructor
  · obtain ⟨hmem, hknodup, hle, hlast⟩ := Snippet.select_spec pool1 N
    have hsub2 : Snippet.keys (Snippet.select_election_validators pool1 N) ⊆
        Snippet.keys pool1 := by
      intro k hk
      obtain ⟨w, hw, rfl⟩ := Snippet.mem_keys.mp hk
      exact Snippet.mem_keys.mpr ⟨w, hmem w hw, rfl⟩
    have hlo : (Snippet.select_election_validators pool1 N).length ≤
        pool1.length := by
      have := (List.subperm_of_subset hknodup hsub2).length_le
      simpa [Snippet.keys] using this
    rcases hlast with heq | hall
    · exact absurd heq (by omega)
    · have hsub : Snippet.keys pool1 ⊆
          Snippet.keys (Snippet.select_election_validators pool1 N) := by
        intro k hk
        obtain ⟨w, hw, rfl⟩ := Snippet.mem_keys.mp hk
        exact hall w hw
      have hhi : pool1.length ≤
          (Snippet.select_election_validators pool1 N).length := by
        have := (List.subperm_of_subset h1 hsub).length_le
        simpa [Snippet.keys] using this
      refine ⟨by omega, fun v hv => ?_⟩
      obtain ⟨u, hu, huv⟩ := Snippet.mem_keys.mp (hall v hv)
      have huveq : u = v :=
        List.inj_on_of_nodup_map (by simpa [Snippet.keys] using h1)
          (hmem u hu) hv huv
      rwa [← huveq]
  · have hNpos : 0 < N := by omega
    have hperm : List.Perm (ConsensusRs.sortedByScore pool2) pool2 :=
      List.perm_insertionSort _ pool2
    have hall : ConsensusRs.select_validators pool2 m N =
        ConsensusRs.sortedByScore pool2 := by
      rw [ConsensusRs.select_take pool2 m N hNpos]
      exact List.take_of_length_le (by rw [hperm.length_eq]; omega)
    rw [hall]
    exact ⟨hperm.length_eq, fun v hv => hperm.mem_iff.mpr hv⟩

/-- C7 witness: the amended theorem on concrete one-validator pools with
committee size 3: both selections return one-validator committees. -/
theorem claim7_witness :
    (Snippet.select_election_validators [cex7_validator] 3).length = 1 ∧
      (ConsensusRs.select_validators [wit7_validator2] 1 3).length = 1 := by
  have h := claim7_amended_undersized [cex7_validator] [wit7_validator2] 3 1
    (by decide) (by decide) (by decide)
  exact ⟨h.1.1, h.2.1⟩
